import Mathlib

/-!
Verification of the research-assistant repository against its specification.

The subjects are the three pure routines of `src/research_assistant.py`:
`validate_report` (its URL-variant expansion and matching loop),
`format_report_markdown`, and the token-bounded chunker `chunk_content`,
together with the `ResearchDeps` construction performed by
`src/streamlit_app.py`.

Modelling conventions:
* Python strings are modelled as `List Char` (named `Str` below); Python's
  `str.split(sep)` for the two-character separators `"\n\n"` and `". "` is
  `splitOn2`, and for the one-character separator `"?"` it is `splitOn1`.
  These keep empty pieces and cut at non-overlapping leftmost occurrences,
  exactly like Python's `str.split` with an explicit separator.
* `count_tokens` delegates entirely to the external `tiktoken` library, so
  the tokenizer is a parameter `tok : Str → Nat` throughout, as the spec
  itself treats it ("a pure function of text to an integer count").
* The Python `set` of URL variants is modelled as a list; the validator only
  ever asks whether some member matches, so duplication and order are
  irrelevant.
* `ModelRetry` exceptions are modelled with `Except`, console warnings as a
  returned list of the warned-about URLs, and `datetime` timestamps as the
  already-formatted string they are printed as.
-/

abbrev Str := List Char

/-- Python `s.split(sep)` for a two-character separator `sep = ⟨a, b⟩`. -/
def splitOn2 (a b : Char) : Str → List Str
  | [] => [[]]
  | [c] => [[c]]
  | c :: d :: rest =>
    if c == a && d == b then
      [] :: splitOn2 a b rest
    else
      match splitOn2 a b (d :: rest) with
      | [] => [[c]]
      | p :: ps => (c :: p) :: ps

/-- Python `s.split(sep)` for a one-character separator `sep = a`. -/
def splitOn1 (a : Char) : Str → List Str
  | [] => [[]]
  | c :: cs =>
    if c == a then
      [] :: splitOn1 a cs
    else
      match splitOn1 a cs with
      | [] => [[c]]
      | p :: ps => (c :: p) :: ps

/-- Python `s.startswith(pat)`. -/
def startsWithL : Str → Str → Bool
  | [], _ => true
  | _ :: _, [] => false
  | p :: ps, c :: cs => p == c && startsWithL ps cs

/-- Python `s.rstrip(c)`: remove every trailing occurrence of `c`. -/
def rstripChar (c : Char) (s : Str) : Str :=
  (s.reverse.dropWhile (fun d => d == c)).reverse

/-! ## URL validation (`validate_report`, lines 152-208)

`expandVariants` is the body of the `for r in ctx.deps.search_results` loop
that populates `valid_urls`; `normalizeUrl` is the normalization applied to
both the candidate (`source_url`) and each `valid_url`; `urlMatches` is the
comparison on line 199-200; `isKnownSource` is the whole "is this citation
URL found among the search results" check for one candidate. -/

/-- The variants the code adds to `valid_urls` for one search-result URL:
the URL itself, the URL without query string, without trailing slashes,
with `www.` prepended (when absent) or removed (when present), and with
`http://`/`https://` swapped. -/
def expandVariants (url : Str) : List Str :=
  [url, (splitOn1 '?' url).headD [], rstripChar '/' url]
  ++ (if !startsWithL "www.".data url then ["www.".data ++ url] else [])
  ++ (if startsWithL "www.".data url then [url.drop 4] else [])
  ++ (if startsWithL "http://".data url then ["https://".data ++ url.drop 7]
      else if startsWithL "https://".data url then ["http://".data ++ url.drop 8]
      else [])

/-- Strip a leading `http://` or `https://` scheme (lines 183-186, 193-196). -/
def stripScheme (u : Str) : Str :=
  if startsWithL "http://".data u then u.drop 7
  else if startsWithL "https://".data u then u.drop 8
  else u

/-- The comparison key: scheme stripped, then `rstrip('/')`. -/
def normalizeUrl (u : Str) : Str := rstripChar '/' (stripScheme u)

/-- Python `u.split('?')[0]`. -/
def dropQuery (u : Str) : Str := (splitOn1 '?' u).headD []

/-- Lines 199-200: the normalized candidate equals the normalized valid URL,
or they agree after removing query strings. -/
def urlMatches (candidate valid : Str) : Bool :=
  normalizeUrl candidate == normalizeUrl valid
    || dropQuery (normalizeUrl candidate) == dropQuery (normalizeUrl valid)

/-- Whether a candidate citation URL is accepted against the known
search-result URLs: some member of the expanded variant set matches. -/
def isKnownSource (candidate : Str) (knownUrls : List Str) : Bool :=
  (knownUrls.flatMap expandVariants).any (fun v => urlMatches candidate v)

/-! ## Report data model and `validate_report` / `format_report_markdown` -/

structure Source where
  title : Str
  url : Str
  snippet : Str
deriving DecidableEq, Repr

structure ResearchSection where
  title : Str
  content : Str
  sources : List Source
deriving DecidableEq, Repr

structure ResearchReport where
  title : Str
  introduction : ResearchSection
  body_sections : List ResearchSection
  conclusion : ResearchSection
  timestamp : Str
deriving DecidableEq, Repr

/-- Line 149-150: `[result.introduction] + result.body_sections + [result.conclusion]`. -/
def sectionsOf (r : ResearchReport) : List ResearchSection :=
  [r.introduction] ++ r.body_sections ++ [r.conclusion]

/-- The URLs of the sources of one section that match no valid URL; the code
prints a console warning for exactly these (lines 180-206). -/
def sectionWarnings (valid_urls : List Str) (sec : ResearchSection) : List Str :=
  (sec.sources.filter (fun s => !(valid_urls.any (fun v => urlMatches s.url v)))).map
    (fun s => s.url)

/-- The `for section in sections` loop: raise `ModelRetry` at the first
section with no sources (line 175-177), otherwise warn about unmatched
source URLs and continue. The accumulated warnings are returned. -/
def validateLoop (valid_urls : List Str) : List ResearchSection → List Str → Except Str (List Str)
  | [], warnings => .ok warnings
  | sec :: rest, warnings =>
    if sec.sources.isEmpty then
      .error ("Section ".data ++ sec.title ++ " must have at least one source".data)
    else
      validateLoop valid_urls rest (warnings ++ sectionWarnings valid_urls sec)

/-- `validate_report` (lines 142-210): `search_result_urls` are the `r['url']`
fields of `ctx.deps.search_results`. On success the function returns the
report unchanged, together with the list of warned-about URLs. -/
def validate_report (search_result_urls : List Str) (result : ResearchReport) :
    Except Str (List Str × ResearchReport) :=
  match validateLoop (search_result_urls.flatMap expandVariants) (sectionsOf result) [] with
  | .error e => .error e
  | .ok warnings => .ok (warnings, result)

/-- Lines 230-234: introduction sources, then each body section's sources,
then conclusion sources. -/
def allSources (report : ResearchReport) : List Source :=
  report.introduction.sources
    ++ report.body_sections.flatMap (fun sec => sec.sources)
    ++ report.conclusion.sources

/-- The two markdown lines appended per enumerated source (lines 236-238). -/
def sourceEntries (numbered : List (Nat × Source)) : List Str :=
  numbered.flatMap (fun p =>
    [(toString p.1).data ++ ". [".data ++ p.2.title ++ "](".data ++ p.2.url ++ ")\n".data,
     "   > ".data ++ p.2.snippet ++ "\n".data])

/-- `format_report_markdown` (lines 213-240): build the `md` list and join
with `"\n"`. The timestamp field holds the already-formatted
`strftime('%Y-%m-%d %H:%M:%S')` output. -/
def format_report_markdown (report : ResearchReport) : Str :=
  let md : List Str :=
    ["# ".data ++ report.title ++ "\n".data,
     "*Generated on ".data ++ report.timestamp ++ "*\n".data,
     "## Introduction\n".data,
     report.introduction.content ++ "\n".data]
    ++ report.body_sections.flatMap (fun sec =>
        ["## ".data ++ sec.title ++ "\n".data, sec.content ++ "\n".data])
    ++ ["## Conclusion\n".data, report.conclusion.content ++ "\n".data, "## Sources\n".data]
    ++ sourceEntries (List.enumFrom 1 (allSources report))
  List.intercalate "\n".data md

/-! ## Token-bounded chunker (`chunk_content`, lines 249-285) -/

structure ChunkState where
  chunks : List Str
  current : List Str
  tokens : Nat
deriving DecidableEq, Repr

/-- One iteration of the `for sentence in sentences` loop (lines 264-273). -/
def procSentence (tok : Str → Nat) (maxTokens : Nat) (st : ChunkState) (sentence : Str) :
    ChunkState :=
  let sentence_tokens := tok sentence
  if st.tokens + sentence_tokens ≤ maxTokens then
    { st with current := st.current ++ [sentence], tokens := st.tokens + sentence_tokens }
  else
    { chunks :=
        if st.current.isEmpty then st.chunks
        else st.chunks ++ [List.intercalate ". ".data st.current ++ ".".data],
      current := [sentence],
      tokens := sentence_tokens }

/-- One iteration of the `for paragraph in paragraphs` loop (lines 258-280). -/
def procParagraph (tok : Str → Nat) (maxTokens : Nat) (st : ChunkState) (paragraph : Str) :
    ChunkState :=
  let paragraph_tokens := tok paragraph
  if maxTokens < paragraph_tokens then
    (splitOn2 '.' ' ' paragraph).foldl (procSentence tok maxTokens) st
  else if st.tokens + paragraph_tokens ≤ maxTokens then
    { st with current := st.current ++ [paragraph], tokens := st.tokens + paragraph_tokens }
  else
    { chunks := st.chunks ++ [List.intercalate "\n\n".data st.current],
      current := [paragraph],
      tokens := paragraph_tokens }

/-- `chunk_content(content, max_tokens)` with the tokenizer as a parameter. -/
def chunk_content (tok : Str → Nat) (content : Str) (max_tokens : Nat) : List Str :=
  let st := (splitOn2 '\n' '\n' content).foldl (procParagraph tok max_tokens) ⟨[], [], 0⟩
  if st.current.isEmpty then st.chunks
  else st.chunks ++ [List.intercalate "\n\n".data st.current]

/-! ### Instrumented chunker

`chunkParts` is `chunk_content` with each emitted chunk kept as the list of
accumulator entries it was joined from, tagged with which join was used:
`.para` for `'\n\n'.join(current_chunk)` and `.sent` for
`'. '.join(current_chunk) + '.'`.  `renderChunk` performs the join, and
`chunk_content` equals `chunkParts` followed by `renderChunk` (proved below),
so properties of the emitted chunks can be read off the parts lists. -/

inductive JoinKind where
  | para
  | sent
deriving DecidableEq, Repr

def renderChunk : JoinKind × List Str → Str
  | (.para, parts) => List.intercalate "\n\n".data parts
  | (.sent, parts) => List.intercalate ". ".data parts ++ ".".data

structure ChunkStateP where
  chunks : List (JoinKind × List Str)
  current : List Str
  tokens : Nat
deriving DecidableEq, Repr

def procSentenceP (tok : Str → Nat) (maxTokens : Nat) (st : ChunkStateP) (sentence : Str) :
    ChunkStateP :=
  let sentence_tokens := tok sentence
  if st.tokens + sentence_tokens ≤ maxTokens then
    { st with current := st.current ++ [sentence], tokens := st.tokens + sentence_tokens }
  else
    { chunks :=
        if st.current.isEmpty then st.chunks
        else st.chunks ++ [(JoinKind.sent, st.current)],
      current := [sentence],
      tokens := sentence_tokens }

def procParagraphP (tok : Str → Nat) (maxTokens : Nat) (st : ChunkStateP) (paragraph : Str) :
    ChunkStateP :=
  let paragraph_tokens := tok paragraph
  if maxTokens < paragraph_tokens then
    (splitOn2 '.' ' ' paragraph).foldl (procSentenceP tok maxTokens) st
  else if st.tokens + paragraph_tokens ≤ maxTokens then
    { st with current := st.current ++ [paragraph], tokens := st.tokens + paragraph_tokens }
  else
    { chunks := st.chunks ++ [(JoinKind.para, st.current)],
      current := [paragraph],
      tokens := paragraph_tokens }

def chunkParts (tok : Str → Nat) (content : Str) (max_tokens : Nat) :
    List (JoinKind × List Str) :=
  let st := (splitOn2 '\n' '\n' content).foldl (procParagraphP tok max_tokens) ⟨[], [], 0⟩
  if st.current.isEmpty then st.chunks
  else st.chunks ++ [(JoinKind.para, st.current)]

/-- The atomic fragments of the input in source order: each paragraph, with a
paragraph whose token count exceeds the budget replaced by its `". "`-split
sentences. Chunk accumulators are filled with exactly these fragments. -/
def atomsOf (tok : Str → Nat) (maxTokens : Nat) (content : Str) : List Str :=
  (splitOn2 '\n' '\n' content).flatMap
    (fun p => if maxTokens < tok p then splitOn2 '.' ' ' p else [p])

/-! ### Concrete tokenizers used in counterexamples and witnesses -/

/-- A simple concrete tokenizer: one token per character. -/
def lenTok (s : Str) : Nat := s.length

/-- A concrete tokenizer assigning 100 tokens to each letter `x` and zero to
everything else; it realises the 100/5000/100-token scenario of the spec. -/
def xTok (s : Str) : Nat := 100 * s.count 'x'

/-! ## The `ResearchDeps` dataclass and its Streamlit construction -/

structure SearchResult where
  title : Str
  url : Str
  content : Str
  snippet : Str
deriving DecidableEq, Repr

/-- The `ResearchDeps` dataclass (research_assistant.py lines 67-72): three
fields, none of which declares a default value. -/
structure ResearchDeps where
  topic : Str
  search_results : List SearchResult
  webpage_contents : List (Str × Str)
deriving DecidableEq, Repr

/-- Python call semantics for `ResearchDeps(...)`: since no field has a
default, a call that omits an argument (modelled as `none`) raises
`TypeError` instead of constructing a value. -/
def ResearchDeps.construct (topic : Option Str) (search_results : Option (List SearchResult))
    (webpage_contents : Option (List (Str × Str))) : Except Str ResearchDeps :=
  match topic, search_results, webpage_contents with
  | some t, some s, some w => .ok ⟨t, s, w⟩
  | _, _, _ => .error "TypeError: ResearchDeps missing required arguments".data

/-- The construction `ResearchDeps(topic=topic, search_results=filtered_results)`
on streamlit_app.py line 214, which passes no `webpage_contents`. -/
def collect_research_data_deps (topic : Str) (filtered_results : List SearchResult) :
    Except Str ResearchDeps :=
  ResearchDeps.construct (some topic) (some filtered_results) none

/-! ## Helper lemmas: URL normalization and matching -/

lemma stripScheme_http_append (s : Str) : stripScheme ("http://".data ++ s) = s := rfl

lemma stripScheme_https_append (s : Str) : stripScheme ("https://".data ++ s) = s := rfl

/-- The first disjunct of the match test is subsumed by the second: two equal
keys also agree after dropping queries, so a match is exactly agreement of
the query-stripped comparison keys. -/
lemma urlMatches_eq_key (c v : Str) :
    urlMatches c v = (dropQuery (normalizeUrl c) == dropQuery (normalizeUrl v)) := by
  unfold urlMatches
  cases h : normalizeUrl c == normalizeUrl v with
  | false => simp
  | true =>
    have h' := eq_of_beq h
    rw [h']
    simp

/-- Acceptance depends on the candidate only through its query-stripped
comparison key. -/
lemma isKnownSource_congr_key (c₁ c₂ : Str) (K : List Str)
    (h : dropQuery (normalizeUrl c₁) = dropQuery (normalizeUrl c₂)) :
    isKnownSource c₁ K = isKnownSource c₂ K := by
  unfold isKnownSource
  simp only [urlMatches_eq_key, h]

lemma self_mem_expandVariants (k : Str) : k ∈ expandVariants k := by
  unfold expandVariants
  simp

/-! ## Helper lemmas: validate_report -/

lemma validateLoop_ok_of_sources (v : List Str) :
    ∀ (secs : List ResearchSection) (ws : List Str),
      (∀ sec ∈ secs, sec.sources ≠ []) →
      validateLoop v secs ws = .ok (ws ++ secs.flatMap (sectionWarnings v))
  | [], ws, _ => by simp [validateLoop]
  | sec :: rest, ws, h => by
    have hne : sec.sources ≠ [] := h sec (by simp)
    have hrest : ∀ s ∈ rest, s.sources ≠ [] := fun s hs => h s (by simp [hs])
    simp only [validateLoop, List.isEmpty_iff, hne, if_false]
    rw [validateLoop_ok_of_sources v rest (ws ++ sectionWarnings v sec) hrest]
    simp

lemma validateLoop_error_iff (v : List Str) :
    ∀ (secs : List ResearchSection) (ws : List Str),
      (∃ e, validateLoop v secs ws = .error e) ↔ ∃ sec ∈ secs, sec.sources = []
  | [], ws => by simp [validateLoop]
  | sec :: rest, ws => by
    by_cases hne : sec.sources = []
    · simp [validateLoop, List.isEmpty_iff, hne]
    · simp only [validateLoop, List.isEmpty_iff, hne, if_false]
      rw [validateLoop_error_iff v rest (ws ++ sectionWarnings v sec)]
      simp [hne]

/-! ## Helper lemmas: the instrumented chunker agrees with `chunk_content` -/

/-- Forget the instrumentation: render every emitted parts list. -/
def eraseP (st : ChunkStateP) : ChunkState :=
  ⟨st.chunks.map renderChunk, st.current, st.tokens⟩

lemma procSentence_eraseP (tok : Str → Nat) (m : Nat) (st : ChunkStateP) (s : Str) :
    procSentence tok m (eraseP st) s = eraseP (procSentenceP tok m st s) := by
  unfold procSentence procSentenceP eraseP
  dsimp only
  split
  · rfl
  · split <;> simp [renderChunk]

lemma foldl_procSentence_eraseP (tok : Str → Nat) (m : Nat) (l : List Str) (st : ChunkStateP) :
    l.foldl (procSentence tok m) (eraseP st) = eraseP (l.foldl (procSentenceP tok m) st) := by
  induction l generalizing st with
  | nil => rfl
  | cons x xs ih => rw [List.foldl_cons, List.foldl_cons, procSentence_eraseP, ih]

lemma procParagraph_eraseP (tok : Str → Nat) (m : Nat) (st : ChunkStateP) (p : Str) :
    procParagraph tok m (eraseP st) p = eraseP (procParagraphP tok m st p) := by
  unfold procParagraph procParagraphP
  dsimp only [eraseP]
  split
  · exact foldl_procSentence_eraseP tok m _ st
  · split <;> simp [renderChunk]

lemma foldl_procParagraph_eraseP (tok : Str → Nat) (m : Nat) (l : List Str) (st : ChunkStateP) :
    l.foldl (procParagraph tok m) (eraseP st) = eraseP (l.foldl (procParagraphP tok m) st) := by
  induction l generalizing st with
  | nil => rfl
  | cons x xs ih => rw [List.foldl_cons, List.foldl_cons, procParagraph_eraseP, ih]

/-- `chunk_content` is `chunkParts` followed by rendering each parts list. -/
lemma chunk_content_eq_render (tok : Str → Nat) (content : Str) (m : Nat) :
    chunk_content tok content m = (chunkParts tok content m).map renderChunk := by
  unfold chunk_content chunkParts
  have h : (⟨[], [], 0⟩ : ChunkState) = eraseP ⟨[], [], 0⟩ := rfl
  rw [h, foldl_procParagraph_eraseP]
  set stP := (splitOn2 '\n' '\n' content).foldl (procParagraphP tok m) ⟨[], [], 0⟩ with hst
  show (if (eraseP stP).current.isEmpty then (eraseP stP).chunks
        else (eraseP stP).chunks ++ [List.intercalate "\n\n".data (eraseP stP).current]) = _
  by_cases hc : stP.current.isEmpty
  · simp [eraseP, hc]
  · simp [eraseP, hc, renderChunk]

/-! ## Helper lemmas: token-budget invariant of the chunker -/

/-- A well-formed emitted parts list: the token counts of its entries sum to
at most the budget, unless it is a single entry that alone exceeds the
budget (an oversized sentence, or an oversized paragraph containing no
`". "`). -/
def partsOk (tok : Str → Nat) (m : Nat) (pk : JoinKind × List Str) : Prop :=
  (pk.2.map tok).sum ≤ m ∨ ∃ s, pk.2 = [s] ∧ m < tok s

/-- Invariant carried through the chunking loops: the running count equals
the token sum of the accumulator, the accumulator is within budget unless
it is a lone oversized entry, and every emitted parts list is well formed. -/
def stInv (tok : Str → Nat) (m : Nat) (st : ChunkStateP) : Prop :=
  st.tokens = (st.current.map tok).sum ∧
  (st.tokens ≤ m ∨ ∃ s, st.current = [s]) ∧
  ∀ pk ∈ st.chunks, partsOk tok m pk

lemma partsOk_of_flush (tok : Str → Nat) (m : Nat) (st : ChunkStateP) (k : JoinKind)
    (h : stInv tok m st) : partsOk tok m (k, st.current) := by
  obtain ⟨ht, hd, _⟩ := h
  by_cases hm : st.tokens ≤ m
  · exact Or.inl (ht ▸ hm)
  · rcases hd with hle | ⟨s, hs⟩
    · exact absurd hle hm
    · refine Or.inr ⟨s, hs, ?_⟩
      have : st.tokens = tok s := by rw [ht, hs]; simp
      omega

lemma procSentenceP_inv (tok : Str → Nat) (m : Nat) (st : ChunkStateP) (s : Str)
    (h : stInv tok m st) : stInv tok m (procSentenceP tok m st s) := by
  obtain ⟨ht, _, hc⟩ := h
  unfold procSentenceP
  dsimp only
  split
  · refine ⟨by simp [ht], Or.inl (by assumption), hc⟩
  · refine ⟨by simp, ?_, ?_⟩
    · by_cases hm : tok s ≤ m
      · exact Or.inl hm
      · exact Or.inr ⟨s, rfl⟩
    · split
      · exact hc
      · intro pk hpk
        rcases List.mem_append.mp hpk with hold | hnew
        · exact hc pk hold
        · rw [List.mem_singleton.mp hnew]
          exact partsOk_of_flush tok m st .sent ⟨ht, ‹_›, hc⟩

lemma foldl_procSentenceP_inv (tok : Str → Nat) (m : Nat) (l : List Str) (st : ChunkStateP)
    (h : stInv tok m st) : stInv tok m (l.foldl (procSentenceP tok m) st) := by
  induction l generalizing st with
  | nil => exact h
  | cons x xs ih => exact ih _ (procSentenceP_inv tok m st x h)

lemma procParagraphP_inv (tok : Str → Nat) (m : Nat) (st : ChunkStateP) (p : Str)
    (h : stInv tok m st) : stInv tok m (procParagraphP tok m st p) := by
  obtain ⟨ht, hd, hc⟩ := h
  unfold procParagraphP
  dsimp only
  split
  · exact foldl_procSentenceP_inv tok m _ st ⟨ht, hd, hc⟩
  · split
    · refine ⟨by simp [ht], Or.inl (by assumption), hc⟩
    · rename_i hover _
      refine ⟨by simp, Or.inl (by dsimp only; omega), ?_⟩
      intro pk hpk
      rcases List.mem_append.mp hpk with hold | hnew
      · exact hc pk hold
      · rw [List.mem_singleton.mp hnew]
        exact partsOk_of_flush tok m st .para ⟨ht, hd, hc⟩

lemma foldl_procParagraphP_inv (tok : Str → Nat) (m : Nat) (l : List Str) (st : ChunkStateP)
    (h : stInv tok m st) : stInv tok m (l.foldl (procParagraphP tok m) st) := by
  induction l generalizing st with
  | nil => exact h
  | cons x xs ih => exact ih _ (procParagraphP_inv tok m st x h)

/-- Every parts list emitted by the chunker is within budget or a lone
oversized entry. -/
lemma chunkParts_partsOk (tok : Str → Nat) (content : Str) (m : Nat) :
    ∀ pk ∈ chunkParts tok content m, partsOk tok m pk := by
  unfold chunkParts
  have h0 : stInv tok m ⟨[], [], 0⟩ := ⟨rfl, Or.inl (Nat.zero_le m), by simp⟩
  have hinv := foldl_procParagraphP_inv tok m (splitOn2 '\n' '\n' content) ⟨[], [], 0⟩ h0
  set stP := (splitOn2 '\n' '\n' content).foldl (procParagraphP tok m) ⟨[], [], 0⟩ with hst
  obtain ⟨ht, hd, hc⟩ := hinv
  intro pk hpk
  dsimp only at hpk
  by_cases hcur : stP.current.isEmpty
  · rw [if_pos hcur] at hpk
    exact hc pk hpk
  · rw [if_neg hcur] at hpk
    rcases List.mem_append.mp hpk with hold | hnew
    · exact hc pk hold
    · rw [List.mem_singleton.mp hnew]
      exact partsOk_of_flush tok m stP .para ⟨ht, hd, hc⟩

/-! ## Helper lemmas: the chunker preserves the input fragments in order -/

/-- All fragments held by a state, emitted chunks first, accumulator last. -/
def flatParts (st : ChunkStateP) : List Str :=
  (st.chunks.map (fun pk => pk.2)).flatten ++ st.current

lemma flatParts_procSentenceP (tok : Str → Nat) (m : Nat) (st : ChunkStateP) (s : Str) :
    flatParts (procSentenceP tok m st s) = flatParts st ++ [s] := by
  unfold procSentenceP flatParts
  dsimp only
  split
  · simp
  · split
    · rename_i hemp
      simp only [List.isEmpty_iff] at hemp
      simp [hemp]
    · simp

lemma flatParts_foldl_procSentenceP (tok : Str → Nat) (m : Nat) (l : List Str)
    (st : ChunkStateP) :
    flatParts (l.foldl (procSentenceP tok m) st) = flatParts st ++ l := by
  induction l generalizing st with
  | nil => simp
  | cons x xs ih =>
    rw [List.foldl_cons, ih, flatParts_procSentenceP]
    simp

lemma flatParts_procParagraphP (tok : Str → Nat) (m : Nat) (st : ChunkStateP) (p : Str) :
    flatParts (procParagraphP tok m st p)
      = flatParts st ++ (if m < tok p then splitOn2 '.' ' ' p else [p]) := by
  unfold procParagraphP
  dsimp only
  split
  · rw [flatParts_foldl_procSentenceP]
  · split
    · unfold flatParts
      simp
    · unfold flatParts
      simp

lemma flatParts_foldl_procParagraphP (tok : Str → Nat) (m : Nat) (l : List Str)
    (st : ChunkStateP) :
    flatParts (l.foldl (procParagraphP tok m) st)
      = flatParts st ++ l.flatMap (fun p => if m < tok p then splitOn2 '.' ' ' p else [p]) := by
  induction l generalizing st with
  | nil => simp
  | cons x xs ih =>
    rw [List.foldl_cons, ih, flatParts_procParagraphP]
    simp

/-- The fragments of the emitted chunks, in order, are exactly the atomic
fragments of the input. -/
lemma chunkParts_flatten_eq_atoms (tok : Str → Nat) (content : Str) (m : Nat) :
    ((chunkParts tok content m).map (fun pk => pk.2)).flatten = atomsOf tok m content := by
  unfold chunkParts atomsOf
  have h := flatParts_foldl_procParagraphP tok m (splitOn2 '\n' '\n' content) ⟨[], [], 0⟩
  set stP := (splitOn2 '\n' '\n' content).foldl (procParagraphP tok m) ⟨[], [], 0⟩ with hst
  have h0 : flatParts (⟨[], [], 0⟩ : ChunkStateP) = [] := rfl
  rw [h0] at h
  simp only [List.nil_append] at h
  dsimp only
  by_cases hcur : stP.current.isEmpty
  · rw [if_pos hcur]
    have : stP.current = [] := List.isEmpty_iff.mp hcur
    unfold flatParts at h
    rw [this] at h
    simpa using h
  · rw [if_neg hcur]
    unfold flatParts at h
    rw [← h]
    simp

/-! ## Specification-side markdown document

`specMarkdownDocument` is written from the spec's own description of the
output artifact (spec section 6): blocks in fixed order, separated by blank
lines, with numbered `[title](url)` source entries each followed by an
indented blockquote. It is compared with `format_report_markdown` below. -/

/-- The spec's numbered source list, counting from `i`. -/
def specNumberedSources : Nat → List Source → List Str
  | _, [] => []
  | i, s :: rest =>
    ((toString i).data ++ ". [".data ++ s.title ++ "](".data ++ s.url ++ ")".data)
      :: ("   > ".data ++ s.snippet)
      :: specNumberedSources (i + 1) rest

/-- The markdown document as the spec lays it out: H1 title, generation
timestamp, `## Introduction`, one `## <section title>` block per body
section, `## Conclusion`, `## Sources` with the numbered entries; blocks
separated by blank lines, document ending in a newline. -/
def specMarkdownDocument (r : ResearchReport) : Str :=
  List.intercalate "\n\n".data
    (["# ".data ++ r.title,
      "*Generated on ".data ++ r.timestamp ++ "*".data,
      "## Introduction".data,
      r.introduction.content]
     ++ r.body_sections.flatMap (fun sec => ["## ".data ++ sec.title, sec.content])
     ++ ["## Conclusion".data, r.conclusion.content, "## Sources".data]
     ++ specNumberedSources 1 (allSources r))
  ++ "\n".data

lemma intercalate_cons_cons (s x y : Str) (l : List Str) :
    List.intercalate s (x :: y :: l) = x ++ s ++ List.intercalate s (y :: l) := by
  simp [List.intercalate, List.intersperse_cons_cons, List.append_assoc]

lemma intercalate_one (s x : Str) : List.intercalate s [x] = x := by
  simp [List.intercalate]

/-- Joining newline-terminated lines with `"\n"` is the same as joining the
bare lines with a blank line and terminating with a newline. -/
lemma intercalate_map_newline (x : Str) (l : List Str) :
    List.intercalate "\n".data ((x :: l).map (fun b => b ++ "\n".data))
      = List.intercalate "\n\n".data (x :: l) ++ "\n".data := by
  induction l generalizing x with
  | nil => simp [intercalate_one]
  | cons y ys ih =>
    have hnl : ("\n\n".data : Str) = "\n".data ++ "\n".data := rfl
    have hy := ih y
    rw [List.map_cons] at hy
    rw [List.map_cons, List.map_cons, intercalate_cons_cons, hy, intercalate_cons_cons, hnl]
    simp [List.append_assoc]

/-- The markdown lines emitted per enumerated source are the spec's blocks,
each terminated by a newline. -/
lemma sourceEntries_eq_spec (n : Nat) (ss : List Source) :
    sourceEntries (List.enumFrom n ss)
      = (specNumberedSources n ss).map (fun b => b ++ "\n".data) := by
  induction ss generalizing n with
  | nil => rfl
  | cons s rest ih =>
    have h1 : (")\n".data : Str) = ")".data ++ "\n".data := rfl
    show sourceEntries ((n, s) :: List.enumFrom (n + 1) rest) = _
    simp only [sourceEntries, List.flatMap_cons, specNumberedSources, List.map_cons]
    rw [← sourceEntries, ih]
    simp [h1, List.append_assoc]

/-! ## Small lemmas used by individual claims -/

lemma procParagraph_nil_fields (tok : Str → Nat) (n : Nat) :
    (procParagraph tok n ⟨[], [], 0⟩ []).chunks = []
    ∧ (procParagraph tok n ⟨[], [], 0⟩ []).current = [[]] := by
  unfold procParagraph
  dsimp only
  by_cases h1 : n < tok []
  · rw [if_pos h1]
    have hs : splitOn2 '.' ' ' ([] : Str) = [[]] := rfl
    rw [hs, List.foldl_cons, List.foldl_nil]
    unfold procSentence
    dsimp only
    have hneg : ¬ (0 + tok ([] : Str) ≤ n) := by omega
    rw [if_neg hneg]
    exact ⟨rfl, rfl⟩
  · rw [if_neg h1]
    have hpos : 0 + tok ([] : Str) ≤ n := by omega
    rw [if_pos hpos]
    exact ⟨rfl, rfl⟩

/-! ## The claims -/

/-- Claim C1, counterexample. The claim asserts that every chunk other than a
single oversized sentence satisfies `count_tokens(chunk) <= maxTokens`. With
the one-token-per-character tokenizer, `"a. b\n\nc"` at budget 5 is packed
into one chunk of 7 tokens: the two paragraphs (4 and 1 tokens, neither
oversized) are joined with their 2-token `"\n\n"` joiner, which the running
count never included. The emitted chunk splits into two sentences, so it is
not a single oversized sentence. -/
theorem claim_C1_counterexample :
    chunk_content lenTok "a. b\n\nc".data 5 = ["a. b\n\nc".data]
    ∧ 5 < lenTok "a. b\n\nc".data
    ∧ (splitOn2 '.' ' ' "a. b\n\nc".data).length = 2
    ∧ splitOn2 '\n' '\n' "a. b\n\nc".data = ["a. b".data, "c".data]
    ∧ lenTok "a. b".data ≤ 5
    ∧ lenTok "c".data ≤ 5 := by
  decide

/-- Claim C1, amended. Every chunk is the rendering (with `'\n\n'` or
`'. '`/trailing `'.'` joiners) of a parts list whose token counts sum to at
most `maxTokens`, except for a chunk consisting of a single oversized entry;
the joiner tokens themselves are outside the running count, so the rendered
chunk's own token count may exceed the budget. -/
theorem claim_C1_amended (tok : Str → Nat) (content : Str) (m : Nat) :
    chunk_content tok content m = (chunkParts tok content m).map renderChunk
    ∧ ∀ pk ∈ chunkParts tok content m,
        ((pk.2.map tok).sum ≤ m ∨ ∃ s, pk.2 = [s] ∧ m < tok s) :=
  ⟨chunk_content_eq_render tok content m, chunkParts_partsOk tok content m⟩

/-- Claim C1, witness: the amended bound instantiated on the counterexample
input's single emitted parts list. -/
theorem claim_C1_witness :
    ((["a. b".data, "c".data] : List Str).map lenTok).sum ≤ 5
    ∨ ∃ s, (["a. b".data, "c".data] : List Str) = [s] ∧ 5 < lenTok s :=
  (claim_C1_amended lenTok "a. b\n\nc".data 5).2
    (JoinKind.para, ["a. b".data, "c".data]) (by decide)

/-- Claim C2, counterexample. The claimed scenario
`isKnownSource("www.example.com/page/", {"https://example.com/page"})` is
false on the code, not true. -/
theorem claim_C2_counterexample :
    ¬ (isKnownSource "www.example.com/page/".data ["https://example.com/page".data] = true) := by
  decide

/-- Claim C2, amended. The validator rejects this candidate: the `www.`
variant is formed by prefixing `www.` to the full scheme-carrying URL,
yielding `www.https://example.com/page`, whose comparison key can never
equal the candidate key `www.example.com/page`; no variant matches. -/
theorem claim_C2_amended :
    isKnownSource "www.example.com/page/".data ["https://example.com/page".data] = false
    ∧ ("www.".data ++ "https://example.com/page".data)
        ∈ expandVariants "https://example.com/page".data
    ∧ (expandVariants "https://example.com/page".data).all
        (fun v => !(urlMatches "www.example.com/page/".data v)) = true := by
  decide

/-- Claim C3, counterexample. In the 100/5000/100-token scenario with budget
4000 (realised by `xTok`), the output does not consist of three chunks with
the first paragraph alone as the first chunk. -/
theorem claim_C3_counterexample :
    (splitOn2 '\n' '\n'
        "x\n\nxxxxxxxxxxxxxxxxxxxxxxxxx. xxxxxxxxxxxxxxxxxxxxxxxxx\n\nx".data).map xTok
      = [100, 5000, 100]
    ∧ ¬ ((chunk_content xTok
            "x\n\nxxxxxxxxxxxxxxxxxxxxxxxxx. xxxxxxxxxxxxxxxxxxxxxxxxx\n\nx".data 4000).length = 3
         ∧ (chunk_content xTok
              "x\n\nxxxxxxxxxxxxxxxxxxxxxxxxx. xxxxxxxxxxxxxxxxxxxxxxxxx\n\nx".data 4000).head?
             = some "x".data) := by
  decide

/-- Claim C3, amended. On meeting an oversized paragraph the code does not
flush the pending accumulator: the pending first paragraph is packed
together with the oversized paragraph's first sentence and flushed with the
`'. '` joiner plus trailing `'.'`, and the leftover sentence is later joined
with the third paragraph by `'\n\n'`; the scenario yields two chunks, not
three. -/
theorem claim_C3_amended :
    chunk_content xTok
        "x\n\nxxxxxxxxxxxxxxxxxxxxxxxxx. xxxxxxxxxxxxxxxxxxxxxxxxx\n\nx".data 4000
      = ["x. xxxxxxxxxxxxxxxxxxxxxxxxx.".data, "xxxxxxxxxxxxxxxxxxxxxxxxx\n\nx".data]
    ∧ chunkParts xTok
        "x\n\nxxxxxxxxxxxxxxxxxxxxxxxxx. xxxxxxxxxxxxxxxxxxxxxxxxx\n\nx".data 4000
      = [(JoinKind.sent, ["x".data, "xxxxxxxxxxxxxxxxxxxxxxxxx".data]),
         (JoinKind.para, ["xxxxxxxxxxxxxxxxxxxxxxxxx".data, "x".data])] := by
  decide

/-- Claim C4, counterexample. `chunk_content("", 5)` is not the empty
sequence: Python's `''.split('\n\n')` is `['']`, the empty paragraph is
accumulated, and the final flush emits it, so the result is `['']`. -/
theorem claim_C4_counterexample :
    chunk_content lenTok "".data 5 = ["".data] ∧ (["".data] : List Str) ≠ [] := by
  decide

/-- Claim C4, amended. Chunking is total, and on empty input it returns the
one-element sequence containing the empty chunk, for every tokenizer and
every budget. -/
theorem claim_C4_amended (tok : Str → Nat) (n : Nat) :
    chunk_content tok [] n = [[]] := by
  unfold chunk_content
  dsimp only
  have hfold : (splitOn2 '\n' '\n' ([] : Str)).foldl (procParagraph tok n) ⟨[], [], 0⟩
      = procParagraph tok n ⟨[], [], 0⟩ [] := rfl
  rw [hfold]
  obtain ⟨hch, hcur⟩ := procParagraph_nil_fields tok n
  rw [hch, hcur]
  simp [intercalate_one]

/-- Claim C5, counterexample. Query-string invariance fails when a trailing
slash sits in front of the query: `https://x.com/a/` is accepted against
`{"https://x.com/a"}` but `https://x.com/a/?q` is not, because the slash is
no longer trailing and survives normalization. Scheme-swap invariance also
fails on the known-URL side: swapping `http://x` for `https://x` changes the
acceptance of the literal candidate `www.http://x`. -/
theorem claim_C5_counterexample :
    isKnownSource "https://x.com/a/".data ["https://x.com/a".data] = true
    ∧ isKnownSource "https://x.com/a/?q".data ["https://x.com/a".data] = false
    ∧ isKnownSource "www.http://x".data ["http://x".data] = true
    ∧ isKnownSource "www.http://x".data ["https://x".data] = false := by
  decide

/-- Claim C5, amended. (1) A candidate whose comparison key equals a known
URL's comparison key is accepted. (2) Swapping `http` and `https` in the
candidate never changes acceptance. (3) Acceptance depends on the candidate
only through its query-stripped comparison key, so adding or removing a
query changes acceptance only when it changes that key (as in the
counterexample, where it shields a trailing slash from `rstrip('/')`). -/
theorem claim_C5_amended :
    (∀ (K : List Str) (c k : Str), k ∈ K → normalizeUrl c = normalizeUrl k →
       isKnownSource c K = true)
    ∧ (∀ (s : Str) (K : List Str),
        isKnownSource ("http://".data ++ s) K = isKnownSource ("https://".data ++ s) K)
    ∧ (∀ (c₁ c₂ : Str) (K : List Str),
        dropQuery (normalizeUrl c₁) = dropQuery (normalizeUrl c₂) →
        isKnownSource c₁ K = isKnownSource c₂ K) := by
  refine ⟨?_, ?_, ?_⟩
  · intro K c k hk hn
    unfold isKnownSource
    rw [List.any_eq_true]
    refine ⟨k, List.mem_flatMap.mpr ⟨k, hk, self_mem_expandVariants k⟩, ?_⟩
    simp [urlMatches, hn]
  · intro s K
    apply isKnownSource_congr_key
    unfold normalizeUrl
    rw [stripScheme_http_append, stripScheme_https_append]
  · intro c₁ c₂ K h
    exact isKnownSource_congr_key c₁ c₂ K h

/-- Claim C5, witness: the three amended parts instantiated at concrete
URLs. -/
theorem claim_C5_witness :
    isKnownSource "https://k.com/p".data ["https://k.com/p".data] = true
    ∧ isKnownSource ("http://".data ++ "x.com/a".data) ["https://x.com/a".data]
        = isKnownSource ("https://".data ++ "x.com/a".data) ["https://x.com/a".data]
    ∧ isKnownSource "https://x.com/a?r=1".data ["https://x.com/a".data]
        = isKnownSource "https://x.com/a".data ["https://x.com/a".data] :=
  ⟨claim_C5_amended.1 ["https://k.com/p".data] "https://k.com/p".data "https://k.com/p".data
      (by decide) (by decide),
   claim_C5_amended.2.1 "x.com/a".data ["https://x.com/a".data],
   claim_C5_amended.2.2 "https://x.com/a?r=1".data "https://x.com/a".data
      ["https://x.com/a".data] (by decide)⟩

/-- Claim C6, counterexample. Lossless reconstruction fails beyond whitespace
normalization: for `"aa. bb\n\ncccc"` at budget 4 the sentence boundary
`". "` inside the oversized first paragraph is replaced by `"\n\n"` in the
emitted chunks, so the non-whitespace character `'.'` present in the input
occurs in no chunk. -/
theorem claim_C6_counterexample :
    ('.' ∈ "aa. bb\n\ncccc".data)
    ∧ chunk_content lenTok "aa. bb\n\ncccc".data 4 = ["aa\n\nbb".data, "cccc".data]
    ∧ ('.' ∉ (chunk_content lenTok "aa. bb\n\ncccc".data 4).flatten) := by
  decide

/-- Claim C6, amended. Order and fragment content are preserved: each chunk
renders a list of consecutive fragments, and the concatenation of all parts
lists in order is exactly the input's fragment sequence (paragraphs, with
oversized paragraphs replaced by their sentences). The joiners, however, are
not faithfully re-inserted: a leftover sentence can later be joined with
`'\n\n'`, and a flushed sentence group gains a trailing `'.'`. -/
theorem claim_C6_amended (tok : Str → Nat) (content : Str) (m : Nat) :
    chunk_content tok content m = (chunkParts tok content m).map renderChunk
    ∧ ((chunkParts tok content m).map (fun pk => pk.2)).flatten = atomsOf tok m content :=
  ⟨chunk_content_eq_render tok content m, chunkParts_flatten_eq_atoms tok content m⟩

/-- Claim C7: when every section has at least one source, validation never
raises regardless of how many citation URLs fail to match: the unmatched
URLs are exactly the warned-about ones and the report is returned
unchanged. -/
theorem claim_C7_nonfatal (search_result_urls : List Str) (r : ResearchReport)
    (h : ∀ sec ∈ sectionsOf r, sec.sources ≠ []) :
    validate_report search_result_urls r
      = .ok ((sectionsOf r).flatMap
               (sectionWarnings (search_result_urls.flatMap expandVariants)), r) := by
  unfold validate_report
  rw [validateLoop_ok_of_sources (search_result_urls.flatMap expandVariants) (sectionsOf r) [] h]
  simp

/-- Claim C7, witness: a report whose two citation URLs match nothing (the
search results are empty) is returned unchanged with both URLs warned
about. -/
theorem claim_C7_witness :
    validate_report []
        ⟨"t".data, ⟨"i".data, "ic".data, [⟨"s".data, "https://a".data, "sn".data⟩]⟩, [],
         ⟨"c".data, "cc".data, [⟨"s2".data, "https://b".data, "sn2".data⟩]⟩, "ts".data⟩
      = .ok (["https://a".data, "https://b".data],
             ⟨"t".data, ⟨"i".data, "ic".data, [⟨"s".data, "https://a".data, "sn".data⟩]⟩, [],
              ⟨"c".data, "cc".data, [⟨"s2".data, "https://b".data, "sn2".data⟩]⟩, "ts".data⟩) := by
  rw [claim_C7_nonfatal [] _ (by decide)]
  rfl

/-- Claim C8: the markdown output has exactly the fixed block structure the
spec describes - H1 title, timestamp, Introduction, the body sections in
order, Conclusion, and the numbered Sources entries with indented
blockquotes - blocks separated by blank lines. -/
theorem claim_C8_format (r : ResearchReport) :
    format_report_markdown r = specMarkdownDocument r := by
  unfold format_report_markdown specMarkdownDocument
  dsimp only
  rw [sourceEntries_eq_spec]
  have hIntro : ("## Introduction\n".data : Str) = "## Introduction".data ++ "\n".data := rfl
  have hConc : ("## Conclusion\n".data : Str) = "## Conclusion".data ++ "\n".data := rfl
  have hSrc : ("## Sources\n".data : Str) = "## Sources".data ++ "\n".data := rfl
  have hStar : ("*\n".data : Str) = "*".data ++ "\n".data := rfl
  have hmd :
      (["# ".data ++ r.title ++ "\n".data,
        "*Generated on ".data ++ r.timestamp ++ "*\n".data,
        "## Introduction\n".data,
        r.introduction.content ++ "\n".data]
       ++ r.body_sections.flatMap (fun sec =>
            ["## ".data ++ sec.title ++ "\n".data, sec.content ++ "\n".data])
       ++ ["## Conclusion\n".data, r.conclusion.content ++ "\n".data, "## Sources\n".data]
       ++ (specNumberedSources 1 (allSources r)).map (fun b => b ++ "\n".data))
      = (["# ".data ++ r.title,
          "*Generated on ".data ++ r.timestamp ++ "*".data,
          "## Introduction".data,
          r.introduction.content]
         ++ r.body_sections.flatMap (fun sec => ["## ".data ++ sec.title, sec.content])
         ++ ["## Conclusion".data, r.conclusion.content, "## Sources".data]
         ++ specNumberedSources 1 (allSources r)).map (fun b => b ++ "\n".data) := by
    simp [List.map_append, List.map_flatMap, hIntro, hConc, hSrc, hStar, List.append_assoc]
  rw [hmd]
  exact intercalate_map_newline ("# ".data ++ r.title)
    (["*Generated on ".data ++ r.timestamp ++ "*".data,
      "## Introduction".data,
      r.introduction.content]
     ++ r.body_sections.flatMap (fun sec => ["## ".data ++ sec.title, sec.content])
     ++ ["## Conclusion".data, r.conclusion.content, "## Sources".data]
     ++ specNumberedSources 1 (allSources r))

/-- Claim C9: validation raises exactly when some section (introduction, a
body section, or the conclusion) has an empty sources list; unmatched URLs
alone never produce an error. -/
theorem claim_C9_raises_iff (search_result_urls : List Str) (r : ResearchReport) :
    (∃ e, validate_report search_result_urls r = .error e)
      ↔ ∃ sec ∈ sectionsOf r, sec.sources = [] := by
  unfold validate_report
  rw [← validateLoop_error_iff (search_result_urls.flatMap expandVariants) (sectionsOf r) []]
  constructor
  · rintro ⟨e, he⟩
    cases h : validateLoop (search_result_urls.flatMap expandVariants) (sectionsOf r) [] with
    | error e₂ => exact ⟨e₂, rfl⟩
    | ok ws => rw [h] at he; simp at he
  · rintro ⟨e, he⟩
    exact ⟨e, by rw [he]⟩

/-- Claim C10: the `ResearchDeps` dataclass declares no default for
`webpage_contents`, so the Streamlit pipeline's construction
`ResearchDeps(topic=topic, search_results=filtered_results)` raises
`TypeError` for every topic and every filtered result list. -/
theorem claim_C10_missing_field (topic : Str) (filtered_results : List SearchResult) :
    collect_research_data_deps topic filtered_results
      = .error "TypeError: ResearchDeps missing required arguments".data := rfl
